import Mathlib

/-!
Verification development for `scripts/process_schemas.py`: the GA4GH
Avro-schema to Python-class generator.  The Python source is shallowly
embedded below: `SchemaClass` methods become functions over a parsed
schema model, fallible operations return `Except GenError`, and the
incremental file output of `SchemaGenerator.write` becomes a list of
structured output lines paired with an optional error (the lines printed
before the first failure).
-/

namespace ProcessSchemas

/-! ## Code-point lexicographic string order

Python compares strings by code point, lexicographically; `sorted` and
`list.sort` use this order.  We model it with a computable boolean
comparison on the underlying character lists (Lean's built-in `String`
order does not reduce in the kernel). -/

/-- Strict lexicographic order on char lists by code point, as Python
string `<`. -/
def lexLt : List Char → List Char → Bool
  | [], [] => false
  | [], _ :: _ => true
  | _ :: _, [] => false
  | a :: as, b :: bs => decide (a < b) || (a == b && lexLt as bs)

/-- Python string `<`. -/
def strLt (a b : String) : Bool := lexLt a.data b.data

/-- Python string `<=` (strict order or equality). -/
def strLe (a b : String) : Bool := strLt a b || a == b

def strLtP (a b : String) : Prop := strLt a b = true

def strLeP (a b : String) : Prop := strLe a b = true

instance : DecidableRel strLtP := fun _ _ => instDecidableEqBool _ _

instance : DecidableRel strLeP := fun _ _ => instDecidableEqBool _ _

theorem lexLt_irrefl (l : List Char) : lexLt l l = false := by
  induction l with
  | nil => rfl
  | cons a as ih => simp [lexLt, ih, lt_irrefl]

theorem lexLt_trans {a b c : List Char} (hab : lexLt a b = true)
    (hbc : lexLt b c = true) : lexLt a c = true := by
  induction a generalizing b c with
  | nil =>
    cases b with
    | nil => simp [lexLt] at hab
    | cons y ys =>
      cases c with
      | nil => simp [lexLt] at hbc
      | cons z zs => simp [lexLt]
  | cons x xs ih =>
    cases b with
    | nil => simp [lexLt] at hab
    | cons y ys =>
      cases c with
      | nil => simp [lexLt] at hbc
      | cons z zs =>
        simp only [lexLt, Bool.or_eq_true, Bool.and_eq_true, decide_eq_true_eq,
          beq_iff_eq] at hab hbc ⊢
        rcases hab with h1 | ⟨rfl, h1⟩
        · rcases hbc with h2 | ⟨rfl, h2⟩
          · exact Or.inl (lt_trans h1 h2)
          · exact Or.inl h1
        · rcases hbc with h2 | ⟨rfl, h2⟩
          · exact Or.inl h2
          · exact Or.inr ⟨rfl, ih h1 h2⟩

theorem lexLt_asymm {a b : List Char} (hab : lexLt a b = true) :
    lexLt b a = false := by
  by_contra h
  have hba : lexLt b a = true := by
    cases hh : lexLt b a
    · exact absurd hh h
    · rfl
  have := lexLt_trans hab hba
  rw [lexLt_irrefl] at this
  exact Bool.false_ne_true this

theorem lexLt_eq_of_not_lt {a b : List Char} (hab : lexLt a b = false)
    (hba : lexLt b a = false) : a = b := by
  induction a generalizing b with
  | nil =>
    cases b with
    | nil => rfl
    | cons y ys => simp [lexLt] at hab
  | cons x xs ih =>
    cases b with
    | nil => simp [lexLt] at hba
    | cons y ys =>
      simp only [lexLt, Bool.or_eq_false_iff, Bool.and_eq_false_iff,
        decide_eq_false_iff_not, beq_eq_false_iff_ne, ne_eq] at hab hba
      have hxy : x = y := by
        rcases hab.2 with h | h
        · rcases hba.2 with h' | h'
          · exact le_antisymm (not_lt.mp hba.1) (not_lt.mp hab.1)
          · exact le_antisymm (not_lt.mp hba.1) (not_lt.mp hab.1)
        · exact le_antisymm (not_lt.mp hba.1) (not_lt.mp hab.1)
      subst hxy
      rcases hab.2 with h | h
      · exact absurd rfl h
      · rcases hba.2 with h' | h'
        · exact absurd rfl h'
        · rw [ih h h']

theorem strLe_total (a b : String) : strLe a b = true ∨ strLe b a = true := by
  unfold strLe strLt
  cases hab : lexLt a.data b.data
  · cases hba : lexLt b.data a.data
    · left
      have : a = b := String.ext (lexLt_eq_of_not_lt hab hba)
      subst this
      simp
    · right; simp
  · left; simp

theorem strLt_asymmP {a b : String} (h : strLt a b = true) :
    strLt b a = false := lexLt_asymm h

theorem strLe_antisymm {a b : String} (hab : strLe a b = true)
    (hba : strLe b a = true) : a = b := by
  unfold strLe at hab hba
  rcases Bool.or_eq_true_iff.mp hab with h1 | h1
  · rcases Bool.or_eq_true_iff.mp hba with h2 | h2
    · exact absurd h2 (by simp [strLt_asymmP h1])
    · exact (beq_iff_eq.mp h2).symm
  · exact beq_iff_eq.mp h1

theorem strLe_trans {a b c : String} (hab : strLe a b = true)
    (hbc : strLe b c = true) : strLe a c = true := by
  unfold strLe at hab hbc ⊢
  rcases Bool.or_eq_true_iff.mp hab with h1 | h1
  · rcases Bool.or_eq_true_iff.mp hbc with h2 | h2
    · exact Bool.or_eq_true_iff.mpr (Or.inl (lexLt_trans h1 h2))
    · have : b = c := beq_iff_eq.mp h2
      subst this
      exact Bool.or_eq_true_iff.mpr (Or.inl h1)
  · have : a = b := beq_iff_eq.mp h1
    subst this
    exact hbc

instance : IsTotal String strLeP := ⟨strLe_total⟩

instance : IsTrans String strLeP := ⟨fun _ _ _ => strLe_trans⟩

instance : IsAntisymm String strLeP := ⟨fun _ _ => strLe_antisymm⟩

theorem strLt_of_strLe_of_ne {a b : String} (h : strLe a b = true)
    (hne : a ≠ b) : strLt a b = true := by
  unfold strLe at h
  rcases Bool.or_eq_true_iff.mp h with h1 | h1
  · exact h1
  · exact absurd (beq_iff_eq.mp h1) hne

theorem strLe_of_strLt {a b : String} (h : strLt a b = true) :
    strLe a b = true := by unfold strLe; rw [h]; rfl

instance : IsAntisymm String strLtP :=
  ⟨fun a b h h' => absurd h' (by simp [strLtP, strLt_asymmP h])⟩

/-! ## Data model

The avro schema objects the script traverses (`avro.schema.*Schema`),
restricted to what `process_schemas.py` inspects.  A field's type object
is represented by `TypeDescriptor`; only the *name* of a referenced
record is relevant to the script, so a record reference carries just its
name. -/

/-- A field's avro type object, as inspected by `getEmbeddedTypes`:
`primitive p` is a `PrimitiveSchema` with `.type = p` (e.g. `"null"`),
`array` an `ArraySchema` with its `.items`, `record` a `RecordSchema`
reference carrying its `.name`, `union` a `UnionSchema` with its ordered
`.schemas`, and `named n` any other named schema (enum, fixed), which
the script's `isinstance` chain never matches. -/
inductive TypeDescriptor where
  | primitive (ptype : String)
  | array (items : TypeDescriptor)
  | record (rname : String)
  | union (branches : List TypeDescriptor)
  | named (n : String)

/-- One avro record field: `field.name`, `field.type`, `field.has_default`
and the textual form of `field.default` printed by `writeConstructor`. -/
structure AvroField where
  name : String
  ftype : TypeDescriptor
  has_default : Bool
  default : String

/-- The result of `avro.schema.parse` on one source file: a record
schema (name, doc, fields) or an enum schema (name, doc, symbols). -/
inductive ParsedSchema where
  | recordSchema (name : String) (doc : Option String) (fields : List AvroField)
  | enumSchema (name : String) (doc : Option String) (symbols : List String)

def ParsedSchema.name : ParsedSchema → String
  | .recordSchema n _ _ => n
  | .enumSchema n _ _ => n

def ParsedSchema.doc : ParsedSchema → Option String
  | .recordSchema _ d _ => d
  | .enumSchema _ d _ => d

/-- The field list of a record schema (enum schemas have none). -/
def ParsedSchema.fieldList : ParsedSchema → List AvroField
  | .recordSchema _ _ fs => fs
  | .enumSchema _ _ _ => []

/-- One `SchemaClass` instance: the raw file contents (`schemaSource`)
and its parse (`schema`); `self.name = self.schema.name`. -/
structure SchemaClass where
  schemaSource : String
  schema : ParsedSchema

def SchemaClass.name (c : SchemaClass) : String := c.schema.name

/-- The exceptions the script can raise while generating:
`assertionError` a failed `assert`, `valueError` from `list.remove` on a
missing element, `unionShapeError` the explicit
`Exception("Schema union assumptions violated")`, `indexError` an
out-of-bounds list subscript, `attributeError` a missing attribute
(`.fields` on a non-record schema). -/
inductive GenError where
  | assertionError
  | valueError
  | unionShapeError
  | indexError
  | attributeError
deriving DecidableEq, Repr

/-! ## Type classifier

`isSearchRequest` / `isSearchResponse` run `re.search` with the patterns
`Search.+Request` / `Search.+Response`; `SchemaGenerator.__init__`
captures the object name with `Search(.+)Request`.  `re.search` finds
the leftmost position where the pattern matches, and the greedy `.+`
then extends to the last position where the literal tail still matches;
`.` does not match a newline. -/

/-- The characters of `s` in positions `[a, b)` are all acceptable for
`.+` (no newline). -/
def interiorOk (s : List Char) (a b : Nat) : Bool :=
  ((s.drop a).take (b - a)).all (fun c => !(c == '\n'))

/-- The pattern `Search(.+)<tail>` matches `s` anchored at position `i`:
`Search` is a prefix of `s.drop i`, and some `j ≥ i + 7` starts the
literal `tail` with only non-newline characters in between.  (`Search`
has 6 characters; `.+` needs at least one more.) -/
def searchTailMatchAt (tail : String) (s : String) (i : Nat) : Bool :=
  "Search".data.isPrefixOf (s.data.drop i) &&
    (List.range (s.length + 1)).any (fun j =>
      decide (i + 7 ≤ j) && tail.data.isPrefixOf (s.data.drop j) &&
        interiorOk s.data (i + 6) j)

/-- `re.search('Search.+<tail>', s) is not None`. -/
def hasSearchTail (tail : String) (s : String) : Bool :=
  (List.range (s.length + 1)).any (searchTailMatchAt tail s)

/-- `SchemaClass.isSearchRequest`: `re.search('Search.+Request', name)`. -/
def isSearchRequest (name : String) : Bool := hasSearchTail "Request" name

/-- `SchemaClass.isSearchResponse`: `re.search('Search.+Response', name)`. -/
def isSearchResponse (name : String) : Bool := hasSearchTail "Response" name

/-- `re.search('Search(.+)Request', s).groups()[0]`: at the leftmost
matching start `i`, the greedy `.+` captures up to the last `j` where
`Request` still matches.  `none` when the pattern does not match. -/
def captureObj (s : String) : Option String :=
  match (List.range (s.length + 1)).filter (searchTailMatchAt "Request" s) with
  | [] => none
  | i :: _ =>
    match ((List.range (s.length + 1)).filter (fun j =>
        decide (i + 7 ≤ j) && "Request".data.isPrefixOf (s.data.drop j) &&
          interiorOk s.data (i + 6) j)).getLast? with
    | none => none
    | some j => some (String.mk ((s.data.drop (i + 6)).take (j - (i + 6))))

/-! ## Field analyzer -/

def fieldLeP (f g : AvroField) : Prop := strLeP f.name g.name

instance : DecidableRel fieldLeP := fun _ _ => instDecidableEqBool _ _

instance : IsTotal AvroField fieldLeP := ⟨fun f g => strLe_total f.name g.name⟩

instance : IsTrans AvroField fieldLeP := ⟨fun _ _ _ => strLe_trans⟩

/-- `SchemaClass.getFields`: `sorted(self.schema.fields, key=lambda f:
f.name)` (Python's stable sort; `insertionSort` is stable). -/
def getFields (fs : List AvroField) : List AvroField :=
  List.insertionSort fieldLeP fs

/-- The field names written by `SchemaClass.writeRequiredFields`: the
names of the sorted fields with `has_default` false, in order. -/
def requiredFieldNames (fs : List AvroField) : List String :=
  ((getFields fs).filter (fun f => !f.has_default)).map (·.name)

/-- `SchemaClass.getValueListName`: asserts `isSearchResponse`, takes
the sorted field names, `remove`s `next_page_token` (`ValueError` when
absent), asserts exactly one name remains and returns it.  Accessing
`.fields` on a non-record schema raises `AttributeError`. -/
def getValueListName (c : SchemaClass) : Except GenError String :=
  if isSearchResponse c.name then
    match c.schema with
    | .recordSchema _ _ fs =>
      let names := (getFields fs).map (·.name)
      if names.contains "next_page_token" then
        match names.erase "next_page_token" with
        | [x] => .ok x
        | _ => .error .assertionError
      else .error .valueError
    | .enumSchema _ _ _ => .error .attributeError
  else .error .assertionError

/-! ## Embedded-type resolver -/

/-- `isinstance(t, avro.schema.PrimitiveSchema) and t.type == "null"`. -/
def isNullPrimitive : TypeDescriptor → Bool
  | .primitive p => p == "null"
  | _ => false

/-- The per-field body of `SchemaClass.getEmbeddedTypes`: `ok (some n)`
when the field contributes the edge to record `n`, `ok none` when the
field is skipped, `error` when the loop body raises.  A union reads
`schemas[0]` and `schemas[1]` before any check, so fewer than two
branches is an `IndexError`; a union whose first branch is not the null
primitive raises the explicit union-shape exception; a union whose
first branch is null but whose second is not a record is skipped. -/
def resolveField : TypeDescriptor → Except GenError (Option String)
  | .array items =>
    match items with
    | .record n => .ok (some n)
    | _ => .ok none
  | .record n => .ok (some n)
  | .union branches =>
    match branches with
    | t0 :: t1 :: _ =>
      if isNullPrimitive t0 then
        match t1 with
        | .record n => .ok (some n)
        | _ => .ok none
      else .error .unionShapeError
    | _ => .error .indexError
  | _ => .ok none

/-- The loop of `getEmbeddedTypes` over the (sorted) fields, stopping at
the first raised exception. -/
def embeddedTypesAux : List AvroField → Except GenError (List (String × String))
  | [] => .ok []
  | f :: rest =>
    match resolveField f.ftype with
    | .error e => .error e
    | .ok none => embeddedTypesAux rest
    | .ok (some n) =>
      match embeddedTypesAux rest with
      | .error e => .error e
      | .ok l => .ok ((f.name, n) :: l)

/-- `SchemaClass.getEmbeddedTypes`: the `(field.name, typename)` pairs
for a record schema (empty for any other schema kind). -/
def getEmbeddedTypes (c : SchemaClass) : Except GenError (List (String × String)) :=
  match c.schema with
  | .recordSchema _ _ fs => embeddedTypesAux (getFields fs)
  | _ => .ok []

/-! ## Endpoint table builder (`SchemaGenerator.__init__`) -/

/-- `[cls.name for cls in self.classes if cls.isSearchRequest()]` — the
classes in collection order, filtered, names taken; no sorting. -/
def requestClassNames (classes : List SchemaClass) : List String :=
  (classes.filter (fun c => isSearchRequest c.name)).map SchemaClass.name

/-- `[cls.name for cls in self.classes if cls.isSearchResponse()]`. -/
def responseClassNames (classes : List SchemaClass) : List String :=
  (classes.filter (fun c => isSearchResponse c.name)).map SchemaClass.name

/-- Python `str.lower()` restricted to ASCII (type names are ASCII
identifiers, where the two agree). -/
def lowerStr (s : String) : String := String.mk (s.data.map Char.toLower)

/-- One iteration of the pairing loop: captures the object name from the
request name, builds `'/{0}/search'.format(objname.lower())` and the
`(url, request, response)` tuple.  The capture cannot fail for a name
that passed `isSearchRequest` (see `captureObj_isSome_of_isSearchRequest`),
matching the script's unchecked `.groups()[0]`. -/
def makeSignature (request response : String) : Option (String × String × String) :=
  (captureObj request).map
    (fun objname => ("/" ++ lowerStr objname ++ "/search", request, response))

/-- Python tuple `<=` on `(url, request, response)`: lexicographic by
component, used by `self.postSignatures.sort()`. -/
def tripleLeP (a b : String × String × String) : Prop :=
  (strLt a.1 b.1 ||
    (a.1 == b.1 && (strLt a.2.1 b.2.1 ||
      (a.2.1 == b.2.1 && strLe a.2.2 b.2.2)))) = true

instance : DecidableRel tripleLeP := fun _ _ => instDecidableEqBool _ _

theorem tripleLeP_total (a b : String × String × String) :
    tripleLeP a b ∨ tripleLeP b a := by
  unfold tripleLeP
  simp only [Bool.or_eq_true, Bool.and_eq_true, beq_iff_eq]
  rcases hu : strLt a.1 b.1 with _ | _
  · rcases hu' : strLt b.1 a.1 with _ | _
    · have h1 : a.1 = b.1 := String.ext (lexLt_eq_of_not_lt hu hu')
      rcases hr : strLt a.2.1 b.2.1 with _ | _
      · rcases hr' : strLt b.2.1 a.2.1 with _ | _
        · have h2 : a.2.1 = b.2.1 := String.ext (lexLt_eq_of_not_lt hr hr')
          rcases strLe_total a.2.2 b.2.2 with h3 | h3
          · exact Or.inl (Or.inr ⟨h1, Or.inr ⟨h2, h3⟩⟩)
          · exact Or.inr (Or.inr ⟨h1.symm, Or.inr ⟨h2.symm, h3⟩⟩)
        · exact Or.inr (Or.inr ⟨h1.symm, Or.inl rfl⟩)
      · exact Or.inl (Or.inr ⟨h1, Or.inl rfl⟩)
    · exact Or.inr (Or.inl rfl)
  · exact Or.inl (Or.inl rfl)

theorem tripleLeP_trans {a b c : String × String × String}
    (hab : tripleLeP a b) (hbc : tripleLeP b c) : tripleLeP a c := by
  unfold tripleLeP at hab hbc ⊢
  simp only [Bool.or_eq_true, Bool.and_eq_true, beq_iff_eq] at hab hbc ⊢
  rcases hab with h1 | ⟨e1, h1⟩
  · rcases hbc with h2 | ⟨e2, h2⟩
    · exact Or.inl (lexLt_trans h1 h2)
    · exact Or.inl (e2 ▸ h1)
  · rcases hbc with h2 | ⟨e2, h2⟩
    · exact Or.inl (e1 ▸ h2)
    · refine Or.inr ⟨e1.trans e2, ?_⟩
      rcases h1 with h1 | ⟨f1, h1⟩
      · rcases h2 with h2 | ⟨f2, h2⟩
        · exact Or.inl (lexLt_trans h1 h2)
        · exact Or.inl (f2 ▸ h1)
      · rcases h2 with h2 | ⟨f2, h2⟩
        · exact Or.inl (f1 ▸ h2)
        · exact Or.inr ⟨f1.trans f2, strLe_trans h1 h2⟩

instance : IsTotal (String × String × String) tripleLeP := ⟨tripleLeP_total⟩

instance : IsTrans (String × String × String) tripleLeP :=
  ⟨fun _ _ _ => tripleLeP_trans⟩

/-- `SchemaGenerator.__init__`'s `postSignatures`: zip the filtered
request and response name lists *in collection order* (no sorting before
the zip), build a tuple per pair, and finally `sort()` the tuples. -/
def postSignatures (classes : List SchemaClass) : List (String × String × String) :=
  List.insertionSort tripleLeP
    (((requestClassNames classes).zip (responseClassNames classes)).filterMap
      (fun p => makeSignature p.1 p.2))

/-! ## Output model (`SchemaGenerator.write` / `SchemaClass.write`)

`write` opens the output file and prints to it incrementally; we model
the file contents as a list of structured lines and a run as the lines
printed before the first raised exception (blank separator lines are
omitted).  The schema-source literal printed for a record is
`formatSchema()`, a deterministic doc-stripping re-wrap of the raw file
contents; no claim depends on its internal formatting, so the line
carries the raw source it is computed from. -/

inductive OutLine where
  | banner
  | importLine (s : String)
  | versionLine (s : String)
  | classHeader (name superclass : String)
  | docLine (s : String)
  | schemaSourceLine (source : String)
  | schemaParseLine
  | requiredFieldsLine (names : List String)
  | valueListLine (name : String)
  | isEmbeddedTypeMethod (pairs : List (String × String))
  | getEmbeddedTypeMethod (pairs : List (String × String))
  | slotsLine (names : List String)
  | ctorDefLine
  | ctorAssignLine (fieldName defaultValue : String)
  | enumSymbolLine (sym : String)
  | postMethodsLine (sigs : List (String × String × String))
deriving DecidableEq, Repr

/-- `SchemaClass.write(outputFile)`: the lines it prints, and the
exception it raises, if any (printing stops there).  `superclass` is
`object` for an enum, else the classification tag; a record prints the
schema literal, required fields, the value-list constant for a search
response (`getValueListName` may raise), the two embedded-type
classmethods (`getEmbeddedTypes` may raise), slots and constructor. -/
def classWriteLines (c : SchemaClass) : List OutLine × Option GenError :=
  let superclass :=
    match c.schema with
    | .enumSchema _ _ _ => "object"
    | .recordSchema _ _ _ =>
      if isSearchRequest c.name then "SearchRequest"
      else if isSearchResponse c.name then "SearchResponse"
      else "ProtocolElement"
  let doc := c.schema.doc.getD "No documentation"
  let hd := [OutLine.classHeader c.name superclass, OutLine.docLine doc]
  match c.schema with
  | .enumSchema _ _ syms => (hd ++ syms.map OutLine.enumSymbolLine, none)
  | .recordSchema _ _ fs =>
    let pre := hd ++ [OutLine.schemaSourceLine c.schemaSource, OutLine.schemaParseLine,
      OutLine.requiredFieldsLine (requiredFieldNames fs)]
    let afterValue : List OutLine × Option GenError :=
      if isSearchResponse c.name then
        match getValueListName c with
        | .error e => (pre, some e)
        | .ok v => (pre ++ [OutLine.valueListLine v], none)
      else (pre, none)
    match afterValue with
    | (ls, some e) => (ls, some e)
    | (ls, none) =>
      match getEmbeddedTypes c with
      | .error e => (ls, some e)
      | .ok pairs =>
        (ls ++ [OutLine.isEmbeddedTypeMethod pairs, OutLine.getEmbeddedTypeMethod pairs,
          OutLine.slotsLine ((getFields fs).map (·.name)), OutLine.ctorDefLine] ++
          (getFields fs).map (fun f => OutLine.ctorAssignLine f.name f.default), none)

/-- The class-emission loop of `SchemaGenerator.write`: each class's
lines in turn, stopping at the first exception. -/
def writeClasses : List SchemaClass → List OutLine × Option GenError
  | [] => ([], none)
  | c :: rest =>
    match classWriteLines c with
    | (ls, some e) => (ls, some e)
    | (ls, none) =>
      let r := writeClasses rest
      (ls ++ r.1, r.2)

/-- The dictionary lookup in `SchemaGenerator.write`: `classes =
dict([(cls.name, cls) ...])` keeps the *last* class with a given name. -/
def lastWithName (classes : List SchemaClass) (n : String) : Option SchemaClass :=
  (classes.filter (fun c => c.name == n)).getLast?

/-- The sequence of classes `SchemaGenerator.write` emits: the name list
sorted, each name looked up in the name dictionary. -/
def writeClassSeq (classes : List SchemaClass) : List SchemaClass :=
  (List.insertionSort strLeP (classes.map SchemaClass.name)).filterMap
    (lastWithName classes)

/-- The version constant: `self.version[1:]` when
`self.version[0].lower() == 'v'` and the string contains a dot, else
the version unchanged.  (Python raises `IndexError` on an empty
version string before this choice; the empty case below is never
reached by a run that got past `writeHeader`'s subscript.) -/
def versionString (version : String) : String :=
  match version.data with
  | [] => version
  | c :: rest =>
    if (Char.toLower c == 'v') && (c :: rest).any (fun x => x == '.') then
      String.mk rest
    else version

/-- `SchemaGenerator.writeHeader`: the banner docstring, the fixed
imports, and the version constant with a leading `v`/`V` stripped when
the string also contains a dot. -/
def headerLines (version : String) : List OutLine :=
  let versionStr := versionString version
  [OutLine.banner,
   OutLine.importLine "from protocol import ProtocolElement",
   OutLine.importLine "from protocol import SearchRequest",
   OutLine.importLine "from protocol import SearchResponse",
   OutLine.importLine "import avro.schema",
   OutLine.versionLine versionStr]

/-- `SchemaGenerator.write`: header, then each class in sorted-name
order, then the `postMethods` table — all printed incrementally to the
already-open output file, so the first component is what the file holds
even when the second reports a raised exception (the table is only
reached when every class wrote successfully). -/
def writeRun (version : String) (classes : List SchemaClass) :
    List OutLine × Option GenError :=
  let body := writeClasses (writeClassSeq classes)
  match body.2 with
  | some e => (headerLines version ++ body.1, some e)
  | none =>
    (headerLines version ++ body.1 ++ [OutLine.postMethodsLine (postSignatures classes)],
      none)

/-! ## Concrete schema classes used as inputs for witnesses and
counterexamples (modelled `.avsc` inputs) -/

/-- The spec's worked example request: `SearchVariantsRequest` with
`reference_name` (no default) and `page_token` (default `None`). -/
def searchVariantsRequestClass : SchemaClass :=
  { schemaSource := "srcVReq"
    schema := .recordSchema "SearchVariantsRequest" none
      [{ name := "reference_name", ftype := .primitive "string",
         has_default := false, default := "None" },
       { name := "page_token",
         ftype := .union [.primitive "null", .primitive "string"],
         has_default := true, default := "None" }] }

/-- The spec's worked example response: `SearchVariantsResponse` with
`next_page_token` (default `None`) and `variants` (default `[]`). -/
def searchVariantsResponseClass : SchemaClass :=
  { schemaSource := "srcVResp"
    schema := .recordSchema "SearchVariantsResponse" none
      [{ name := "next_page_token",
         ftype := .union [.primitive "null", .primitive "string"],
         has_default := true, default := "None" },
       { name := "variants", ftype := .array (.record "Variant"),
         has_default := true, default := "[]" }] }

def searchCallsRequestClass : SchemaClass :=
  { schemaSource := "srcCReq"
    schema := .recordSchema "SearchCallsRequest" none
      [{ name := "page_token", ftype := .primitive "string",
         has_default := true, default := "None" }] }

def searchCallsResponseClass : SchemaClass :=
  { schemaSource := "srcCResp"
    schema := .recordSchema "SearchCallsResponse" none
      [{ name := "next_page_token",
         ftype := .union [.primitive "null", .primitive "string"],
         has_default := true, default := "None" },
       { name := "calls", ftype := .array (.record "Call"),
         has_default := true, default := "[]" }] }

/-- A record whose `calls` field is typed `union { null, array<Call> }`
— first union branch null, second branch an array (not a record). -/
def callSetClass : SchemaClass :=
  { schemaSource := "srcCallSet"
    schema := .recordSchema "CallSet" none
      [{ name := "calls",
         ftype := .union [.primitive "null", .array (.record "Call")],
         has_default := true, default := "[]" }] }

/-- A record with a field whose union type has no branches at all. -/
def emptyUnionClass : SchemaClass :=
  { schemaSource := "srcBad"
    schema := .recordSchema "Bad" none
      [{ name := "u", ftype := .union [],
         has_default := true, default := "None" }] }

/-- A plain record that generates cleanly. -/
def aaaClass : SchemaClass :=
  { schemaSource := "srcAaa"
    schema := .recordSchema "Aaa" none
      [{ name := "id", ftype := .primitive "string",
         has_default := false, default := "None" }] }

/-- A response whose field set lacks `next_page_token`, so
`getValueListName` raises. -/
def badResponseClass : SchemaClass :=
  { schemaSource := "srcZzz"
    schema := .recordSchema "SearchZzzResponse" none
      [{ name := "stuff", ftype := .primitive "string",
         has_default := true, default := "None" }] }

/-- Collection order A for the four search classes: requests then
responses, each internally aligned. -/
def permA : List SchemaClass :=
  [searchCallsRequestClass, searchVariantsRequestClass,
   searchCallsResponseClass, searchVariantsResponseClass]

/-- Collection order B: the same set with the two responses swapped, as
another possible `glob.glob` enumeration of the same files. -/
def permB : List SchemaClass :=
  [searchCallsRequestClass, searchVariantsRequestClass,
   searchVariantsResponseClass, searchCallsResponseClass]

/-! ## Helper lemmas -/

theorem strLe_refl (a : String) : strLe a a = true := by
  unfold strLe
  simp

theorem filterMap_none_of_all {α β : Type} (f : α → Option β) (l : List α)
    (h : ∀ a ∈ l, f a = none) : l.filterMap f = [] := by
  induction l with
  | nil => rfl
  | cons a as ih =>
    rw [List.filterMap_cons, h a (by simp)]
    exact ih (fun x hx => h x (by simp [hx]))

theorem insertionSort_strLeP_eq_of_perm {l1 l2 : List String} (h : l1.Perm l2) :
    List.insertionSort strLeP l1 = List.insertionSort strLeP l2 :=
  List.eq_of_perm_of_sorted
    ((List.perm_insertionSort strLeP l1).trans
      (h.trans (List.perm_insertionSort strLeP l2).symm))
    (List.sorted_insertionSort strLeP l1) (List.sorted_insertionSort strLeP l2)

theorem pairwise_strLt_of_nodup {l : List String}
    (hs : l.Pairwise strLeP) (hn : l.Nodup) : l.Pairwise strLtP :=
  (hs.and hn).imp (fun h => strLt_of_strLe_of_ne h.1 h.2)

/-- Strict order on fields by name, used only to identify sorted field
lists up to permutation. -/
def fieldLtP (f g : AvroField) : Prop := strLtP f.name g.name

instance : IsAntisymm AvroField fieldLtP :=
  ⟨fun _ _ h h' => absurd h' (by simp [fieldLtP, strLtP, strLt_asymmP h])⟩

theorem getFields_perm (fs : List AvroField) : (getFields fs).Perm fs :=
  List.perm_insertionSort fieldLeP fs

theorem getFields_sorted (fs : List AvroField) : (getFields fs).Pairwise fieldLeP :=
  List.sorted_insertionSort fieldLeP fs

theorem getFields_names_nodup {fs : List AvroField}
    (h : (fs.map AvroField.name).Nodup) :
    ((getFields fs).map AvroField.name).Nodup :=
  h.perm ((getFields_perm fs).map AvroField.name).symm

theorem getFields_pairwise_ne {fs : List AvroField}
    (h : (fs.map AvroField.name).Nodup) :
    (getFields fs).Pairwise (fun f g => f.name ≠ g.name) :=
  List.pairwise_map.mp (getFields_names_nodup h)

theorem getFields_pairwise_lt {fs : List AvroField}
    (h : (fs.map AvroField.name).Nodup) : (getFields fs).Pairwise fieldLtP :=
  ((getFields_sorted fs).and (getFields_pairwise_ne h)).imp
    (fun hh => strLt_of_strLe_of_ne hh.1 hh.2)

theorem getFields_names_pairwise_lt {fs : List AvroField}
    (h : (fs.map AvroField.name).Nodup) :
    ((getFields fs).map AvroField.name).Pairwise strLtP :=
  List.pairwise_map.mpr (getFields_pairwise_lt h)

theorem getFields_eq_of_perm {fs1 fs2 : List AvroField}
    (hn : (fs1.map AvroField.name).Nodup) (h : fs1.Perm fs2) :
    getFields fs1 = getFields fs2 :=
  List.eq_of_perm_of_sorted
    ((getFields_perm fs1).trans (h.trans (getFields_perm fs2).symm))
    (getFields_pairwise_lt hn)
    (getFields_pairwise_lt (hn.perm (h.map AvroField.name)))

/-- The class name announced by a `class ...(...)` line, if any. -/
def classHeaderName : OutLine → Option String
  | .classHeader n _ => some n
  | _ => none

/-- Whether a line is the `postMethods` endpoint table. -/
def isPostMethodsLine : OutLine → Bool
  | .postMethodsLine _ => true
  | _ => false

/-- Each class emission contributes exactly its own `class` header line
and never a `postMethods` line, whether it completes or raises. -/
theorem classWriteLines_shape (c : SchemaClass) :
    (classWriteLines c).1.filterMap classHeaderName = [c.name] ∧
    (classWriteLines c).1.filter isPostMethodsLine = [] := by
  obtain ⟨src, sch⟩ := c
  cases sch with
  | enumSchema n d syms =>
    refine ⟨?_, ?_⟩ <;>
      simp [classWriteLines, classHeaderName, isPostMethodsLine,
        SchemaClass.name, ParsedSchema.name, List.filterMap_map, List.filter_map,
        Function.comp]
  | recordSchema n d fs =>
    cases h1 : isSearchResponse n with
    | false =>
      cases h3 : getEmbeddedTypes ⟨src, .recordSchema n d fs⟩ with
      | error e =>
        refine ⟨?_, ?_⟩ <;>
          simp [classWriteLines, classHeaderName, isPostMethodsLine,
            SchemaClass.name, ParsedSchema.name, h1, h3]
      | ok pairs =>
        refine ⟨?_, ?_⟩ <;>
          simp [classWriteLines, classHeaderName, isPostMethodsLine,
            SchemaClass.name, ParsedSchema.name, h1, h3, List.filterMap_map,
            List.filter_map, Function.comp]
    | true =>
      cases h2 : getValueListName ⟨src, .recordSchema n d fs⟩ with
      | error e =>
        refine ⟨?_, ?_⟩ <;>
          simp [classWriteLines, classHeaderName, isPostMethodsLine,
            SchemaClass.name, ParsedSchema.name, h1, h2]
      | ok v =>
        cases h3 : getEmbeddedTypes ⟨src, .recordSchema n d fs⟩ with
        | error e =>
          refine ⟨?_, ?_⟩ <;>
            simp [classWriteLines, classHeaderName, isPostMethodsLine,
              SchemaClass.name, ParsedSchema.name, h1, h2, h3]
        | ok pairs =>
          refine ⟨?_, ?_⟩ <;>
            simp [classWriteLines, classHeaderName, isPostMethodsLine,
              SchemaClass.name, ParsedSchema.name, h1, h2, h3, List.filterMap_map,
              List.filter_map, Function.comp]

/-- The class-emission loop never prints a `postMethods` line. -/
theorem writeClasses_no_post (cs : List SchemaClass) :
    (writeClasses cs).1.filter isPostMethodsLine = [] := by
  induction cs with
  | nil => rfl
  | cons c rest ih =>
    simp only [writeClasses]
    cases h : classWriteLines c with
    | mk ls err =>
      have hls : ls.filter isPostMethodsLine = [] := by
        have := (classWriteLines_shape c).2
        rw [h] at this
        exact this
      cases err with
      | some e => simp [hls]
      | none => simp [List.filter_append, hls, ih]

/-- The `class` header names printed by the emission loop form a
sublist of the names of the classes given to it (a proper one when a
class raises part-way). -/
theorem writeClasses_headers_sublist (cs : List SchemaClass) :
    ((writeClasses cs).1.filterMap classHeaderName).Sublist
      (cs.map SchemaClass.name) := by
  induction cs with
  | nil => simp [writeClasses]
  | cons c rest ih =>
    simp only [writeClasses]
    cases h : classWriteLines c with
    | mk ls err =>
      have hls : ls.filterMap classHeaderName = [c.name] := by
        have := (classWriteLines_shape c).1
        rw [h] at this
        exact this
      cases err with
      | none =>
        simpa [List.filterMap_append, hls] using
          List.Sublist.cons₂ (SchemaClass.name c) ih
      | some e =>
        rw [hls]
        exact List.Sublist.cons₂ (SchemaClass.name c) (List.nil_sublist _)

theorem lastWithName_name {cs : List SchemaClass} {n : String} {c : SchemaClass}
    (h : lastWithName cs n = some c) : c.name = n := by
  have hmem := List.mem_of_mem_getLast? h
  exact eq_of_beq (List.mem_filter.mp hmem).2

/-- The name sequence of the classes the writer emits is a sublist of
the sorted name list. -/
theorem writeClassSeq_names_sublist (cs : List SchemaClass) :
    ((writeClassSeq cs).map SchemaClass.name).Sublist
      (List.insertionSort strLeP (cs.map SchemaClass.name)) := by
  unfold writeClassSeq
  generalize List.insertionSort strLeP (cs.map SchemaClass.name) = l
  induction l with
  | nil => simp
  | cons a l ih =>
    rw [List.filterMap_cons]
    cases h : lastWithName cs a with
    | none => exact ih.cons a
    | some c =>
      rw [List.map_cons, lastWithName_name h]
      exact ih.cons₂ a

/-- With unique class names, the emitted class sequence has strictly
ascending names. -/
theorem writeClassSeq_names_pairwise_lt {cs : List SchemaClass}
    (h : (cs.map SchemaClass.name).Nodup) :
    ((writeClassSeq cs).map SchemaClass.name).Pairwise strLtP := by
  have hsorted : (List.insertionSort strLeP (cs.map SchemaClass.name)).Pairwise strLeP :=
    List.sorted_insertionSort strLeP _
  have hnodup : (List.insertionSort strLeP (cs.map SchemaClass.name)).Nodup :=
    h.perm (List.perm_insertionSort strLeP _).symm
  exact List.Pairwise.sublist (writeClassSeq_names_sublist cs)
    (pairwise_strLt_of_nodup hsorted hnodup)

theorem headerLines_filterMap (v : String) :
    (headerLines v).filterMap classHeaderName = [] := by
  simp [headerLines, classHeaderName]

theorem headerLines_filter_post (v : String) :
    (headerLines v).filter isPostMethodsLine = [] := by
  simp [headerLines, isPostMethodsLine]

theorem perm_eq_of_length_le_one {α : Type} {l1 l2 : List α}
    (h : l1.Perm l2) (hl : l1.length ≤ 1) : l1 = l2 := by
  cases l1 with
  | nil => exact (h.symm.eq_nil).symm
  | cons a as =>
    cases as with
    | nil => exact (List.perm_singleton.mp h.symm).symm
    | cons b bs => simp at hl

/-- With unique class names, at most one class bears a given name. -/
theorem filter_name_length_le {cs : List SchemaClass}
    (h : (cs.map SchemaClass.name).Nodup) (n : String) :
    (cs.filter (fun c => c.name == n)).length ≤ 1 := by
  induction cs with
  | nil => simp
  | cons c rest ih =>
    simp only [List.map_cons, List.nodup_cons] at h
    obtain ⟨hnotin, hrest⟩ := h
    rw [List.filter_cons]
    by_cases hc : (SchemaClass.name c == n) = true
    · rw [if_pos hc]
      have hnil : rest.filter (fun c => c.name == n) = [] := by
        apply List.filter_eq_nil_iff.mpr
        intro x hx hbx
        exact hnotin (List.mem_map.mpr ⟨x, hx, by rw [eq_of_beq hbx, eq_of_beq hc]⟩)
      simp [hnil]
    · rw [if_neg hc]
      exact ih hrest

theorem lastWithName_eq_of_perm {cs1 cs2 : List SchemaClass}
    (h : cs1.Perm cs2) (hn : (cs1.map SchemaClass.name).Nodup) (n : String) :
    lastWithName cs1 n = lastWithName cs2 n := by
  unfold lastWithName
  rw [perm_eq_of_length_le_one (h.filter _) (filter_name_length_le hn n)]

theorem writeClassSeq_eq_of_perm {cs1 cs2 : List SchemaClass}
    (h : cs1.Perm cs2) (hn : (cs1.map SchemaClass.name).Nodup) :
    writeClassSeq cs1 = writeClassSeq cs2 := by
  unfold writeClassSeq
  rw [insertionSort_strLeP_eq_of_perm (h.map SchemaClass.name)]
  exact List.filterMap_congr (fun x _ => lastWithName_eq_of_perm h hn x)

/-! ## Definitions following the spec's words, for comparison with the
code's behaviour -/

/-- Modelled from the spec's words (claim C5): the three descriptor
shapes said to produce an edge to record `n` — a direct Record
reference, an Array of a Record, or a *two-branch* union
`[null, Record]`. -/
def specEdgeShapeC5 (t : TypeDescriptor) (n : String) : Bool :=
  match t with
  | .record m => m == n
  | .array (.record m) => m == n
  | .union [t0, .record m] => isNullPrimitive t0 && (m == n)
  | _ => false

/-- Modelled from the spec's words (§4.6 / claim C2): the endpoint
table built with the request and response name lists each
*independently sorted by full type name* before the i-th/i-th pairing.
Compared against the code's `postSignatures`, which zips in collection
order. -/
def specPostSignatures (classes : List SchemaClass) :
    List (String × String × String) :=
  List.insertionSort tripleLeP
    (((List.insertionSort strLeP (requestClassNames classes)).zip
        (List.insertionSort strLeP (responseClassNames classes))).filterMap
      (fun p => makeSignature p.1 p.2))

/-- Collection order in which the request list is not name-sorted while
the response list is. -/
def permC2 : List SchemaClass :=
  [searchVariantsRequestClass, searchCallsRequestClass,
   searchCallsResponseClass, searchVariantsResponseClass]

/-- The same input set as `permA` enumerated with the classes
interleaved; the filtered request and response name lists come out
identical to `permA`'s. -/
def permA2 : List SchemaClass :=
  [searchCallsRequestClass, searchCallsResponseClass,
   searchVariantsRequestClass, searchVariantsResponseClass]

/-- A run input whose second class (in sorted emission order) fails
value-list extraction. -/
def failRunClasses : List SchemaClass := [aaaClass, badResponseClass]

/-- A union with three branches, the first null and the second a
record. -/
def unionThreeBranches : TypeDescriptor :=
  .union [.primitive "null", .record "A", .primitive "int"]

/-- `isinstance(t, avro.schema.RecordSchema)` on a field's second union
branch. -/
def isRecordRef : TypeDescriptor → Bool
  | .record _ => true
  | _ => false

/-- A matched `Search(.+)Request` always yields a capture: the
`.groups()[0]` subscript in `SchemaGenerator.__init__` cannot fail for
a name that passed `isSearchRequest`. -/
theorem captureObj_isSome_of_isSearchRequest {s : String}
    (h : isSearchRequest s = true) : ∃ o, captureObj s = some o := by
  unfold isSearchRequest hasSearchTail at h
  obtain ⟨i, hi, hp⟩ := List.any_eq_true.mp h
  unfold captureObj
  cases hf : (List.range (s.length + 1)).filter (searchTailMatchAt "Request" s) with
  | nil =>
    exfalso
    have hmem : i ∈ (List.range (s.length + 1)).filter
        (searchTailMatchAt "Request" s) := List.mem_filter.mpr ⟨hi, hp⟩
    rw [hf] at hmem
    exact absurd hmem (List.not_mem_nil i)
  | cons i0 rest =>
    have hi0 : searchTailMatchAt "Request" s i0 = true := by
      have hmem : i0 ∈ (List.range (s.length + 1)).filter
          (searchTailMatchAt "Request" s) := by
        rw [hf]
        exact List.mem_cons_self i0 rest
      exact (List.mem_filter.mp hmem).2
    unfold searchTailMatchAt at hi0
    rw [Bool.and_eq_true] at hi0
    obtain ⟨hpre, hany⟩ := hi0
    obtain ⟨j, hj, hcond⟩ := List.any_eq_true.mp hany
    have hjs : j ∈ (List.range (s.length + 1)).filter (fun j =>
        decide (i0 + 7 ≤ j) && "Request".data.isPrefixOf (s.data.drop j) &&
          interiorOk s.data (i0 + 6) j) := List.mem_filter.mpr ⟨hj, hcond⟩
    cases hl : ((List.range (s.length + 1)).filter (fun j =>
        decide (i0 + 7 ≤ j) && "Request".data.isPrefixOf (s.data.drop j) &&
          interiorOk s.data (i0 + 6) j)).getLast? with
    | none =>
      rw [List.getLast?_eq_none_iff] at hl
      rw [hl] at hjs
      exact absurd hjs (List.not_mem_nil j)
    | some jj =>
      refine ⟨String.mk ((s.data.drop (i0 + 6)).take (jj - (i0 + 6))), ?_⟩
      dsimp only
      rw [hl]

/-- The per-field lookup table `getEmbeddedTypes` builds, characterized
entry by entry: an entry for `(fn, n)` exists exactly when some field
named `fn` resolves to record `n`. -/
theorem embeddedTypesAux_mem {fs : List AvroField} {l : List (String × String)}
    (h : embeddedTypesAux fs = .ok l) (fn n : String) :
    ((fn, n) ∈ l ↔ ∃ f ∈ fs, f.name = fn ∧ resolveField f.ftype = .ok (some n)) := by
  induction fs generalizing l with
  | nil =>
    simp only [embeddedTypesAux, Except.ok.injEq] at h
    subst h
    simp
  | cons f rest ih =>
    simp only [embeddedTypesAux] at h
    cases hr : resolveField f.ftype with
    | error e => rw [hr] at h; exact absurd h (by simp)
    | ok o =>
      rw [hr] at h
      cases o with
      | none =>
        rw [ih h]
        constructor
        · rintro ⟨g, hg, hgn, hres⟩
          exact ⟨g, List.mem_cons_of_mem f hg, hgn, hres⟩
        · rintro ⟨g, hg, hgn, hres⟩
          rcases List.mem_cons.mp hg with rfl | hg'
          · rw [hr] at hres; exact absurd hres (by simp)
          · exact ⟨g, hg', hgn, hres⟩
      | some m =>
        cases haux : embeddedTypesAux rest with
        | error e => rw [haux] at h; exact absurd h (by simp)
        | ok l' =>
          rw [haux] at h
          simp only [Except.ok.injEq] at h
          subst h
          simp only [List.mem_cons]
          constructor
          · rintro (hpair | hmem)
            · simp only [Prod.mk.injEq] at hpair
              exact ⟨f, Or.inl rfl, hpair.1.symm, by rw [hr, hpair.2]⟩
            · obtain ⟨g, hg, hgn, hres⟩ := (ih haux).mp hmem
              exact ⟨g, Or.inr hg, hgn, hres⟩
          · rintro ⟨g, hg, hgn, hres⟩
            rcases hg with rfl | hg'
            · rw [hr] at hres
              simp only [Except.ok.injEq, Option.some.injEq] at hres
              exact Or.inl (by rw [← hgn, hres])
            · exact Or.inr ((ih haux).mpr ⟨g, hg', hgn, hres⟩)

/-! ## Claims -/

/-- Claim C1, counterexample: a field typed `Union[null, Array[Record
("Call")]]` does *not* raise the union-shape exception — the code
silently skips it (`getEmbeddedTypes` returns an empty edge list, not
an error), contradicting the claim that every union other than
`[null, Record]` fails with UnsupportedUnionShapeError. -/
theorem claimC1_counterexample : getEmbeddedTypes callSetClass = .ok [] := rfl

/-- Claim C1, amended: for a union field with at least two branches, the
union-shape exception is raised exactly when the first branch is not the
null primitive; an edge to record `n` is produced exactly when the first
branch is null and the second is the record `n`; and when the first
branch is null but the second is not a record the field is silently
skipped (no edge, no error). -/
theorem claimC1_amended (t0 t1 : TypeDescriptor) (rest : List TypeDescriptor) :
    (resolveField (.union (t0 :: t1 :: rest)) = .error .unionShapeError ↔
      isNullPrimitive t0 = false)
  ∧ (∀ n, resolveField (.union (t0 :: t1 :: rest)) = .ok (some n) ↔
      (isNullPrimitive t0 = true ∧ t1 = .record n))
  ∧ (resolveField (.union (t0 :: t1 :: rest)) = .ok none ↔
      (isNullPrimitive t0 = true ∧ isRecordRef t1 = false)) := by
  cases h : isNullPrimitive t0 with
  | false => cases t1 <;> simp [resolveField, h]
  | true => cases t1 <;> simp [resolveField, h, isRecordRef]

/-- Claim C2, counterexample: on a collection order whose filtered
request-name list is not sorted, the code's pairing (zip in collection
order) differs from the spec's sort-before-pairing: the code mispairs
`SearchCallsRequest` with `SearchVariantsResponse`. -/
theorem claimC2_counterexample :
    postSignatures permC2 =
      [("/calls/search", "SearchCallsRequest", "SearchVariantsResponse"),
       ("/variants/search", "SearchVariantsRequest", "SearchCallsResponse")]
  ∧ specPostSignatures permC2 =
      [("/calls/search", "SearchCallsRequest", "SearchCallsResponse"),
       ("/variants/search", "SearchVariantsRequest", "SearchVariantsResponse")]
  ∧ decide (postSignatures permC2 = specPostSignatures permC2) = false :=
  ⟨rfl, rfl, rfl⟩

/-- Claim C2, amended: the request and response name lists are zipped in
collection order with no sorting before the pairing; the result agrees
with the spec's sort-both-lists-then-pair table exactly when the two
filtered lists happen to be enumerated already sorted. -/
theorem claimC2_amended (cs : List SchemaClass)
    (h1 : (requestClassNames cs).Pairwise strLeP)
    (h2 : (responseClassNames cs).Pairwise strLeP) :
    postSignatures cs = specPostSignatures cs := by
  unfold postSignatures specPostSignatures
  rw [List.Sorted.insertionSort_eq h1, List.Sorted.insertionSort_eq h2]

/-- Claim C2 witness: on the sorted enumeration `permA` the code's table
coincides with the spec-modelled sorted pairing. -/
theorem claimC2_amended_witness :
    postSignatures permA = specPostSignatures permA :=
  claimC2_amended permA (by decide) (by decide)

/-- Claim C3, counterexample: two enumerations of the same four input
definitions (a permutation) produce different output artifacts — the
endpoint table pairs the types differently — refuting byte-identical
determinism over enumeration order. -/
theorem claimC3_counterexample :
    permA.Perm permB ∧
    decide (writeRun "v0.5.1" permA = writeRun "v0.5.1" permB) = false := by
  refine ⟨?_, by decide⟩
  exact List.Perm.cons _ (List.Perm.cons _
    (List.Perm.swap searchVariantsResponseClass searchCallsResponseClass []))

/-- Claim C3, amended: over two enumerations of the same input set
(unique class names), the emitted class-definition section is
identical; the whole artifact is identical when additionally the
filtered request-name and response-name lists come out equal (the
endpoint pairing is taken in enumeration order). -/
theorem claimC3_amended (v : String) {cs1 cs2 : List SchemaClass}
    (hp : cs1.Perm cs2) (hn : (cs1.map SchemaClass.name).Nodup) :
    writeClasses (writeClassSeq cs1) = writeClasses (writeClassSeq cs2)
  ∧ (requestClassNames cs1 = requestClassNames cs2 →
     responseClassNames cs1 = responseClassNames cs2 →
     writeRun v cs1 = writeRun v cs2) := by
  have hseq := writeClassSeq_eq_of_perm hp hn
  refine ⟨by rw [hseq], ?_⟩
  intro hreq hresp
  simp only [writeRun, postSignatures, hseq, hreq, hresp]

/-- Claim C3 witness: two interleavings of the same four classes whose
request and response lists agree produce identical artifacts. -/
theorem claimC3_amended_witness :
    writeRun "v0.5.1" permA = writeRun "v0.5.1" permA2 :=
  (claimC3_amended "v0.5.1"
    (List.Perm.cons searchCallsRequestClass
      (List.Perm.swap searchCallsResponseClass searchVariantsRequestClass
        [searchVariantsResponseClass]))
    (by decide)).2 rfl rfl

/-- Claim C4: `getValueListName(T)` succeeds with `X` iff `T` is
classified SearchResponse and is a record whose field names are exactly
`next_page_token` and `X` (two fields); and every failure is one of the
response-shape errors (failed assert, `list.remove` ValueError, or the
missing-`.fields` AttributeError on a non-record). -/
theorem claimC4_value_list (c : SchemaClass) (X : String) :
    (getValueListName c = .ok X ↔
      (isSearchResponse c.name = true ∧
        ∃ nm d fs, c.schema = .recordSchema nm d fs ∧
          (fs.map AvroField.name).Perm ["next_page_token", X]))
  ∧ (∀ e, getValueListName c = .error e →
      (e = .assertionError ∨ e = .valueError ∨ e = .attributeError)) := by
  obtain ⟨src, sch⟩ := c
  constructor
  · cases h1 : isSearchResponse (SchemaClass.name ⟨src, sch⟩) with
    | false => simp [getValueListName, h1]
    | true =>
      cases sch with
      | enumSchema nm d syms => simp [getValueListName, h1]
      | recordSchema nm d fs =>
        simp only [h1, true_and]
        have hperm : ((getFields fs).map AvroField.name).Perm
            (fs.map AvroField.name) := (getFields_perm fs).map AvroField.name
        constructor
        · intro hok
          simp only [getValueListName, h1, if_true] at hok
          cases hcont : ((getFields fs).map AvroField.name).contains
              "next_page_token" with
          | false => rw [hcont] at hok; exact absurd hok (by simp)
          | true =>
            rw [hcont] at hok
            simp only [if_true] at hok
            have hmem : "next_page_token" ∈ (getFields fs).map AvroField.name :=
              List.elem_iff.mp hcont
            cases herase : ((getFields fs).map AvroField.name).erase
                "next_page_token" with
            | nil => rw [herase] at hok; exact absurd hok (by simp)
            | cons x tl =>
              cases tl with
              | nil =>
                rw [herase] at hok
                simp only [Except.ok.injEq] at hok
                have h2 : ((getFields fs).map AvroField.name).Perm
                    ["next_page_token", x] := by
                  have h3 := List.perm_cons_erase hmem
                  rw [herase] at h3
                  exact h3
                exact ⟨nm, d, fs, rfl, hperm.symm.trans (hok ▸ h2)⟩
              | cons y tl2 => rw [herase] at hok; exact absurd hok (by simp)
        · rintro ⟨nm', d', fs', heq, hp⟩
          injection heq with e1 e2 e3
          subst e3
          have hnames : ((getFields fs).map AvroField.name).Perm
              ["next_page_token", X] := hperm.trans hp
          have hmem : "next_page_token" ∈ (getFields fs).map AvroField.name :=
            hnames.mem_iff.mpr (by simp)
          have hcont : ((getFields fs).map AvroField.name).contains
              "next_page_token" = true := List.elem_iff.mpr hmem
          have herase : ((getFields fs).map AvroField.name).erase
              "next_page_token" = [X] := by
            apply List.perm_singleton.mp
            have h3 := hnames.erase "next_page_token"
            rw [List.erase_cons_head] at h3
            exact h3
          simp only [getValueListName, h1, if_true, hcont, herase]
  · intro e he
    cases h1 : isSearchResponse (SchemaClass.name ⟨src, sch⟩) with
    | false =>
      simp only [getValueListName, h1, Bool.false_eq_true, if_false,
        Except.error.injEq] at he
      exact Or.inl he.symm
    | true =>
      cases sch with
      | enumSchema nm d syms =>
        simp only [getValueListName, h1, if_true, Except.error.injEq] at he
        exact Or.inr (Or.inr he.symm)
      | recordSchema nm d fs =>
        simp only [getValueListName, h1, if_true] at he
        cases hcont : ((getFields fs).map AvroField.name).contains
            "next_page_token" with
        | false =>
          rw [hcont] at he
          simp only [Bool.false_eq_true, if_false, Except.error.injEq] at he
          exact Or.inr (Or.inl he.symm)
        | true =>
          rw [hcont] at he
          simp only [if_true] at he
          cases herase : ((getFields fs).map AvroField.name).erase
              "next_page_token" with
          | nil =>
            rw [herase] at he
            simp only [Except.error.injEq] at he
            exact Or.inl he.symm
          | cons x tl =>
            cases tl with
            | nil => rw [herase] at he; exact absurd he (by simp)
            | cons y tl2 =>
              rw [herase] at he
              simp only [Except.error.injEq] at he
              exact Or.inl he.symm

/-- Claim C4 witness: the spec's example response succeeds with
`variants`, so the success characterization is inhabited. -/
theorem claimC4_value_list_witness :
    isSearchResponse (SchemaClass.name searchVariantsResponseClass) = true ∧
    ∃ nm d fs, searchVariantsResponseClass.schema = .recordSchema nm d fs ∧
      (fs.map AvroField.name).Perm ["next_page_token", "variants"] :=
  (claimC4_value_list searchVariantsResponseClass "variants").1.mp rfl

/-- Claim C5, counterexample: a union with three branches
`[null, Record("A"), int]` produces an edge, although it is none of the
claim's three shapes (direct Record, Array of Record, or *two-branch*
`[null, Record]` union). -/
theorem claimC5_counterexample :
    resolveField unionThreeBranches = .ok (some "A") ∧
    specEdgeShapeC5 unionThreeBranches "A" = false :=
  ⟨rfl, rfl⟩

/-- Claim C5, amended: a field resolves to an edge to record `n` iff its
descriptor is a direct Record reference `n`, an Array of Record `n`, or
a union with at least two branches whose first branch is the null
primitive and whose second is Record `n` (extra branches are ignored);
and whenever `getEmbeddedTypes` succeeds, its table has an entry
`(fn, n)` exactly when some field named `fn` resolves to `n` — the basis
of the emitted `isEmbeddedType` / `getEmbeddedType` lookups. -/
theorem claimC5_amended :
    (∀ (t : TypeDescriptor) (n : String), resolveField t = .ok (some n) ↔
      (t = .record n ∨ t = .array (.record n) ∨
        ∃ t0 rest, t = .union (t0 :: .record n :: rest) ∧
          isNullPrimitive t0 = true))
  ∧ ∀ (c : SchemaClass) (l : List (String × String)) (fn n : String),
      getEmbeddedTypes c = .ok l →
      ((fn, n) ∈ l ↔ ∃ f ∈ c.schema.fieldList, f.name = fn ∧
        resolveField f.ftype = .ok (some n)) := by
  constructor
  · intro t n
    cases t with
    | primitive p => simp [resolveField]
    | named m => simp [resolveField]
    | record m => simp [resolveField]
    | array items => cases items <;> simp [resolveField]
    | union bs =>
      cases bs with
      | nil => simp [resolveField]
      | cons t0 tl =>
        cases tl with
        | nil => simp [resolveField]
        | cons t1 rest =>
          cases h : isNullPrimitive t0 with
          | false => cases t1 <;> simp [resolveField, h]
          | true =>
            cases t1 <;> simp [resolveField, h]
            constructor
            · intro he
              exact ⟨t0, ⟨rfl, he⟩, h⟩
            · rintro ⟨t0', ⟨-, he⟩, -⟩
              exact he
  · intro c l fn n h
    obtain ⟨src, sch⟩ := c
    cases sch with
    | enumSchema nm d syms =>
      simp only [getEmbeddedTypes, Except.ok.injEq] at h
      subst h
      simp [ParsedSchema.fieldList]
    | recordSchema nm d fs =>
      simp only [getEmbeddedTypes] at h
      rw [embeddedTypesAux_mem h fn n]
      simp only [ParsedSchema.fieldList]
      constructor
      · rintro ⟨g, hg, hgn, hres⟩
        exact ⟨g, (getFields_perm fs).mem_iff.mp hg, hgn, hres⟩
      · rintro ⟨g, hg, hgn, hres⟩
        exact ⟨g, (getFields_perm fs).mem_iff.mpr hg, hgn, hres⟩

/-- Claim C5 witness: in the spec's example response, the table entry
`("variants", "Variant")` corresponds to the `variants` field resolving
to the `Variant` record. -/
theorem claimC5_amended_witness :
    ∃ f ∈ searchVariantsResponseClass.schema.fieldList, f.name = "variants" ∧
      resolveField f.ftype = .ok (some "Variant") :=
  (claimC5_amended.2 searchVariantsResponseClass [("variants", "Variant")]
    "variants" "Variant" rfl).mp (by decide)

/-- Claim C6: with unique type names, the emitted `class` header names
are strictly ascending; with unique field names within a record, the
sorted field-name sequence used by slots/constructor emission and the
required-field name sequence are strictly ascending; and the sorted
field list depends only on the set of fields, not on declaration
order. -/
theorem claimC6_sorted_emission (v : String) (cs : List SchemaClass)
    (hnames : (cs.map SchemaClass.name).Nodup) :
    ((writeRun v cs).1.filterMap classHeaderName).Pairwise strLtP
  ∧ (∀ c ∈ cs, ((c.schema.fieldList).map AvroField.name).Nodup →
      (((getFields c.schema.fieldList).map AvroField.name).Pairwise strLtP
      ∧ (requiredFieldNames c.schema.fieldList).Pairwise strLtP))
  ∧ (∀ fs1 fs2 : List AvroField, (fs1.map AvroField.name).Nodup → fs1.Perm fs2 →
      getFields fs1 = getFields fs2) := by
  refine ⟨?_, ?_, ?_⟩
  · cases hb : writeClasses (writeClassSeq cs) with
    | mk lines err =>
      have hsub : (lines.filterMap classHeaderName).Sublist
          ((writeClassSeq cs).map SchemaClass.name) := by
        have h2 := writeClasses_headers_sublist (writeClassSeq cs)
        rw [hb] at h2
        exact h2
      have hpw := List.Pairwise.sublist hsub (writeClassSeq_names_pairwise_lt hnames)
      cases err with
      | some e =>
        simp only [writeRun, hb, List.filterMap_append, headerLines_filterMap,
          List.nil_append]
        exact hpw
      | none =>
        simp only [writeRun, hb, List.filterMap_append, headerLines_filterMap,
          List.nil_append, List.filterMap_cons, List.filterMap_nil, classHeaderName,
          List.append_nil]
        exact hpw
  · intro c _hc hnodup
    refine ⟨getFields_names_pairwise_lt hnodup, ?_⟩
    unfold requiredFieldNames
    exact List.Pairwise.sublist
      ((List.filter_sublist _).map _) (getFields_names_pairwise_lt hnodup)
  · intro fs1 fs2 h1 h2
    exact getFields_eq_of_perm h1 h2

/-- Claim C6 witness: the four-class run emits strictly ascending class
names, and the example request's field names come out strictly
sorted. -/
theorem claimC6_sorted_emission_witness :
    ((writeRun "v0.5.1" permA).1.filterMap classHeaderName).Pairwise strLtP ∧
    ((getFields searchCallsRequestClass.schema.fieldList).map
      AvroField.name).Pairwise strLtP :=
  ⟨(claimC6_sorted_emission "v0.5.1" permA (by decide)).1,
   ((claimC6_sorted_emission "v0.5.1" permA (by decide)).2.1
     searchCallsRequestClass (List.mem_cons_self _ _) (by decide)).1⟩

/-- Claim C7: the emitted required-field set contains exactly the names
of the fields without a default value. -/
theorem claimC7_required_fields (fs : List AvroField) (n : String) :
    n ∈ requiredFieldNames fs ↔ ∃ f ∈ fs, f.name = n ∧ f.has_default = false := by
  unfold requiredFieldNames
  constructor
  · intro hn
    obtain ⟨f, hf, rfl⟩ := List.mem_map.mp hn
    obtain ⟨hf1, hf2⟩ := List.mem_filter.mp hf
    exact ⟨f, (getFields_perm fs).mem_iff.mp hf1, rfl, by simpa using hf2⟩
  · rintro ⟨f, hf, rfl, hd⟩
    exact List.mem_map.mpr
      ⟨f, List.mem_filter.mpr ⟨(getFields_perm fs).mem_iff.mpr hf, by simp [hd]⟩, rfl⟩

/-- Claim C8: every endpoint triple is built as
`('/' ++ lowercase(object) ++ '/search', request, response)` with
`object` captured from the request name by `Search(.+)Request`, from a
request/response pair of the filtered name lists; the table is sorted
ascending by url; and the spec's example pair yields exactly
`("/variants/search", "SearchVariantsRequest",
"SearchVariantsResponse")`. -/
theorem claimC8_endpoint_table (cs : List SchemaClass) :
    ((postSignatures cs).Pairwise (fun a b => strLe a.1 b.1 = true))
  ∧ (∀ t ∈ postSignatures cs, ∃ req resp obj,
      captureObj req = some obj ∧ req ∈ requestClassNames cs ∧
      resp ∈ responseClassNames cs ∧
      t = ("/" ++ lowerStr obj ++ "/search", req, resp))
  ∧ postSignatures [searchVariantsRequestClass, searchVariantsResponseClass] =
      [("/variants/search", "SearchVariantsRequest", "SearchVariantsResponse")] := by
  refine ⟨?_, ?_, rfl⟩
  · have hs := List.sorted_insertionSort tripleLeP
      (((requestClassNames cs).zip (responseClassNames cs)).filterMap
        (fun p => makeSignature p.1 p.2))
    exact hs.imp (fun {a b} h => by
      unfold tripleLeP at h
      rcases Bool.or_eq_true_iff.mp h with h1 | h1
      · exact strLe_of_strLt h1
      · rw [Bool.and_eq_true] at h1
        obtain ⟨he, -⟩ := h1
        rw [eq_of_beq he]
        exact strLe_refl _)
  · intro t ht
    unfold postSignatures at ht
    have ht2 := (List.perm_insertionSort tripleLeP _).mem_iff.mp ht
    obtain ⟨p, hp, hmk⟩ := List.mem_filterMap.mp ht2
    unfold makeSignature at hmk
    cases hc : captureObj p.1 with
    | none => rw [hc] at hmk; exact absurd hmk (by simp)
    | some obj =>
      rw [hc] at hmk
      simp only [Option.map_some', Option.some.injEq] at hmk
      obtain ⟨h1, h2⟩ := List.of_mem_zip hp
      exact ⟨p.1, p.2, obj, hc, h1, h2, hmk.symm⟩

/-- Claim C8 witness: the `/calls/search` triple of the four-class run
decomposes as the url formula requires. -/
theorem claimC8_endpoint_table_witness :
    ∃ req resp obj, captureObj req = some obj ∧
      req ∈ requestClassNames permA ∧ resp ∈ responseClassNames permA ∧
      ("/calls/search", "SearchCallsRequest", "SearchCallsResponse") =
        ("/" ++ lowerStr obj ++ "/search", req, resp) :=
  (claimC8_endpoint_table permA).2.1 _ (by decide)

/-- Claim C9, counterexample: a run over `[Aaa, SearchZzzResponse]`
fails value-list extraction on the second class, yet the output file
already holds 21 lines — the header, the whole `Aaa` class, and the
failing class's block up to its required-fields line — so a failed run
does leave an incomplete output artifact visible. -/
theorem claimC9_counterexample :
    (writeRun "v0.5.1" failRunClasses).2 = some .valueError
  ∧ (writeRun "v0.5.1" failRunClasses).1.length = 21
  ∧ (writeRun "v0.5.1" failRunClasses).1.getLast? =
      some (.requiredFieldsLine [])
  ∧ decide ((writeRun "v0.5.1" failRunClasses).1 = []) = false :=
  ⟨rfl, rfl, rfl, rfl⟩

/-- Claim C9, amended: when a run fails, emission stops at the failing
class and the `postMethods` endpoint table is never written — but the
lines already printed to the open output file remain, so the artifact
can be left incomplete (there is no staging or atomic rename). -/
theorem claimC9_amended (v : String) (cs : List SchemaClass)
    (h : (writeRun v cs).2.isSome = true) :
    (writeRun v cs).1.filter isPostMethodsLine = [] := by
  cases hb : writeClasses (writeClassSeq cs) with
  | mk lines err =>
    have hlines : lines.filter isPostMethodsLine = [] := by
      have h2 := writeClasses_no_post (writeClassSeq cs)
      rw [hb] at h2
      exact h2
    cases err with
    | none => simp [writeRun, hb] at h
    | some e =>
      simp only [writeRun, hb, List.filter_append, headerLines_filter_post,
        List.nil_append]
      exact hlines

/-- Claim C9 witness: the failing run of the counterexample input never
writes an endpoint table. -/
theorem claimC9_amended_witness :
    (writeRun "v0.5.1" failRunClasses).1.filter isPostMethodsLine = [] :=
  claimC9_amended "v0.5.1" failRunClasses rfl

/-- Claim C10: `resolveField` reaches the out-of-bounds branch access
(`IndexError`, not the union-shape exception) exactly on a union with
fewer than two branches — so the resolver is total on union fields only
under the at-least-two-branches precondition — and a record with an
empty-union field makes `getEmbeddedTypes` fail that way. -/
theorem claimC10_union_bounds :
    (∀ t : TypeDescriptor, resolveField t = .error .indexError ↔
      ∃ bs, t = .union bs ∧ bs.length < 2)
  ∧ getEmbeddedTypes emptyUnionClass = .error .indexError := by
  refine ⟨?_, rfl⟩
  intro t
  cases t with
  | primitive p => simp [resolveField]
  | named m => simp [resolveField]
  | record m => simp [resolveField]
  | array items => cases items <;> simp [resolveField]
  | union bs =>
    cases bs with
    | nil => exact iff_of_true rfl ⟨[], rfl, by simp⟩
    | cons t0 tl =>
      cases tl with
      | nil => exact iff_of_true rfl ⟨[t0], rfl, by simp⟩
      | cons t1 rest =>
        apply iff_of_false
        · cases h : isNullPrimitive t0 with
          | false => simp [resolveField, h]
          | true => cases t1 <;> simp [resolveField, h]
        · rintro ⟨bs', hbs, hlen⟩
          injection hbs with hbs
          subst hbs
          simp at hlen
          omega

end ProcessSchemas
